import Mathlib

/-!
Verification of the bump allocator in src/src/bump_allocator.rs.

Addresses are modelled as natural numbers; the null pointer is address 0
(the failure sentinel and the uninitialized-cursor sentinel of the source).
Machine integers are usize values on the 64-bit targets the crate supports,
so wrapping arithmetic is taken modulo 2 ^ 64 where the source can wrap.
The atomic fetch_update loop of alloc is modelled by its sequential
semantics: one atomic execution of the update closure per call, which is
the linearized behaviour the source guarantees.
-/

namespace BumpAlloc

/-- The number of values of usize on the 64-bit targets the crate runs on. -/
def USIZE : Nat := 2 ^ 64

/-- A core::alloc::Layout value: a size and an alignment. -/
structure Layout where
  size : Nat
  align : Nat
deriving DecidableEq

/-- The function align_up from the source:
fn align_up(ptr, alignment) computes ((ptr.addr() + mask) & !mask) with
mask = alignment - 1; the addition is usize (wrapping) addition and the
complement operator on usize is xor with the all-ones 64-bit word. -/
def align_up (p alignment : Nat) : Nat :=
  let mask := alignment - 1
  ((p + mask) % USIZE) &&& ((USIZE - 1) ^^^ mask)

/-- The state of BumpAllocator<HEAP_SIZE>: the address of the backing
buffer (field heap, obtained by heap_start in the source) and the atomic
cursor next_free, where 0 is the null sentinel stored by new. -/
structure BumpAllocator (HEAP_SIZE : Nat) where
  heap_start : Nat
  next_free : Nat
deriving DecidableEq

namespace BumpAllocator

variable {HEAP_SIZE : Nat}

/-- BumpAllocator::new: the cursor starts as the null pointer sentinel.
The buffer contents are irrelevant to the allocation logic; the address at
which the instance lives is the heap_start parameter of the model. -/
def new (HEAP_SIZE : Nat) (heap_start : Nat) : BumpAllocator HEAP_SIZE :=
  { heap_start := heap_start, next_free := 0 }

/-- The effective cursor: the update closure in alloc reads next_free and
replaces the null sentinel by the buffer start address. -/
def cursor (a : BumpAllocator HEAP_SIZE) : Nat :=
  if a.next_free = 0 then a.heap_start else a.next_free

/-- GlobalAlloc::alloc from the source, sequential semantics of the
fetch_update closure: resolve the sentinel, round the cursor up to the
requested alignment, bound-check the block end against the heap end, and
either fail (return null, state unchanged) or advance the cursor to the
block end and return the block start. -/
def alloc (a : BumpAllocator HEAP_SIZE) (layout : Layout) :
    Nat × BumpAllocator HEAP_SIZE :=
  let next_free := if a.next_free = 0 then a.heap_start else a.next_free
  let next_block_start := align_up next_free layout.align
  let block_end := next_block_start + layout.size
  let heap_end := a.heap_start + HEAP_SIZE
  if heap_end < block_end then
    (0, a)
  else
    (next_block_start, { a with next_free := block_end })

/-- GlobalAlloc::dealloc from the source: the body is empty. -/
def dealloc (a : BumpAllocator HEAP_SIZE) ( _ptr : Nat) ( _layout : Layout) :
    BumpAllocator HEAP_SIZE :=
  a

/-- Machine validity of an allocator state: the backing buffer is a real
allocated object, so its base address is nonzero, 16-aligned (the struct
carries repr(align(16))), and the object lies in the caller half of the
address space (a Rust allocated object spans at most isize::MAX bytes and
ends below 2 ^ 63 on the supported targets); the cursor is either the null
sentinel or a value inside the buffer bounds. -/
def WF (a : BumpAllocator HEAP_SIZE) : Prop :=
  0 < a.heap_start ∧ a.heap_start % 16 = 0 ∧
    a.heap_start + HEAP_SIZE ≤ 2 ^ 63 ∧
    (a.next_free = 0 ∨
      (a.heap_start ≤ a.next_free ∧ a.next_free ≤ a.heap_start + HEAP_SIZE))

instance (a : BumpAllocator HEAP_SIZE) : Decidable a.WF := by
  unfold WF; infer_instance

end BumpAllocator


/-- A valid Layout alignment: a power of two representable as a usize
(Layout::from_size_align caps the alignment at 2 ^ 63). -/
def ValidAlign (al : Nat) : Prop := ∃ k, k ≤ 63 ∧ al = 2 ^ k

instance : DecidablePred ValidAlign := fun al =>
  decidable_of_iff (∃ k, k < 64 ∧ al = 2 ^ k) (by
    constructor
    · rintro ⟨k, hk, rfl⟩; exact ⟨k, by omega, rfl⟩
    · rintro ⟨k, hk, rfl⟩; exact ⟨k, by omega, rfl⟩)

/-- One external call to the allocator interface. -/
inductive Call where
  | allocate (size align : Nat)
  | deallocate (p size align : Nat)
deriving DecidableEq

/-- The caller precondition of a call: allocate requires a valid power of
two alignment; deallocate accepts anything (defensive no-op). -/
def ValidCall : Call → Prop
  | .allocate _ al => ValidAlign al
  | .deallocate _ _ _ => True

instance : DecidablePred ValidCall := fun c => by
  cases c <;> simp only [ValidCall] <;> infer_instance

open BumpAllocator in
/-- The state transition of one call. -/
def applyCall (a : BumpAllocator HEAP_SIZE) : Call → BumpAllocator HEAP_SIZE
  | .allocate s al => (a.alloc ⟨s, al⟩).2
  | .deallocate p s al => a.dealloc p ⟨s, al⟩

/-- The state after a sequence of calls. -/
def runState (a : BumpAllocator HEAP_SIZE) : List Call → BumpAllocator HEAP_SIZE
  | [] => a
  | c :: cs => runState (applyCall a c) cs

/-- The (address, size) block issued by one call: a successful allocate
(the returned pointer is not the null sentinel) issues its block, a failed
allocate and a deallocate issue nothing. -/
def callBlocks (a : BumpAllocator HEAP_SIZE) : Call → List (Nat × Nat)
  | .allocate s al =>
      if (a.alloc ⟨s, al⟩).1 = 0 then [] else [((a.alloc ⟨s, al⟩).1, s)]
  | .deallocate _ _ _ => []

/-- All blocks issued by the successful allocate calls of a sequence. -/
def runBlocks (a : BumpAllocator HEAP_SIZE) : List Call → List (Nat × Nat)
  | [] => []
  | c :: cs => callBlocks a c ++ runBlocks (applyCall a c) cs

/-- Two byte ranges overlap when some address lies in both. -/
def Overlap (b1 b2 : Nat × Nat) : Prop :=
  ∃ x, (b1.1 ≤ x ∧ x < b1.1 + b1.2) ∧ (b2.1 ≤ x ∧ x < b2.1 + b2.2)

/-! Arithmetic characterization of align_up. -/

/-- Masking a 64-bit value with the complement of a low bit mask clears the
low k bits, i.e. rounds down to a multiple of 2 ^ k. -/
theorem land_high_bits (x k : Nat) (hk : k ≤ 64) (hx : x < 2 ^ 64) :
    x &&& ((2 ^ 64 - 1) ^^^ (2 ^ k - 1)) = 2 ^ k * (x / 2 ^ k) := by
  have hmul : 2 ^ k * (x / 2 ^ k) = (x >>> k) <<< k := by
    rw [Nat.shiftLeft_eq, Nat.shiftRight_eq_div_pow, Nat.mul_comm]
  rw [hmul]
  apply Nat.eq_of_testBit_eq
  intro i
  rw [Nat.testBit_land, Nat.testBit_xor, Nat.testBit_shiftLeft,
    Nat.testBit_shiftRight, Nat.testBit_two_pow_sub_one,
    Nat.testBit_two_pow_sub_one]
  rcases Nat.lt_or_ge i k with hik | hik
  · have h1 : decide (i < 64) = true := decide_eq_true (by omega)
    have h2 : decide (i < k) = true := decide_eq_true hik
    have h3 : decide (i ≥ k) = false := by simp; omega
    rw [h1, h2, h3]
    simp
  · have h2 : decide (i < k) = false := by simp; omega
    have h3 : decide (i ≥ k) = true := decide_eq_true hik
    have h4 : k + (i - k) = i := by omega
    rw [h2, h3, h4]
    rcases Nat.lt_or_ge i 64 with h64 | h64
    · have h5 : decide (i < 64) = true := decide_eq_true h64
      rw [h5]; simp
    · have hbit : x.testBit i = false :=
        Nat.testBit_lt_two_pow
          (lt_of_lt_of_le hx (Nat.pow_le_pow_right (by omega) h64))
      have h5 : decide (i < 64) = false := by simp; omega
      rw [h5, hbit]; simp

/-- With no wraparound, align_up rounds its argument up to the next
multiple of the (power of two) alignment. -/
theorem align_up_eq (p k : Nat) (hk : k ≤ 63) (hp : p + 2 ^ k ≤ 2 ^ 64) :
    align_up p (2 ^ k) = 2 ^ k * ((p + (2 ^ k - 1)) / 2 ^ k) := by
  have hpos : 0 < 2 ^ k := Nat.two_pow_pos k
  have hlt : p + (2 ^ k - 1) < 2 ^ 64 := by omega
  simp only [align_up, USIZE]
  rw [Nat.mod_eq_of_lt hlt]
  exact land_high_bits _ k (by omega) hlt

theorem ValidAlign.pos {al : Nat} (ha : ValidAlign al) : 0 < al := by
  obtain ⟨k, _, rfl⟩ := ha
  exact Nat.two_pow_pos k

theorem ValidAlign.le_half {al : Nat} (ha : ValidAlign al) : al ≤ 2 ^ 63 := by
  obtain ⟨k, hk, rfl⟩ := ha
  exact Nat.pow_le_pow_right (by omega) hk

/-- In the addressable half of the address space there is no wraparound,
and align_up only rounds up, never down. -/
theorem align_up_ge {al : Nat} (p : Nat) (ha : ValidAlign al)
    (hp : p ≤ 2 ^ 63) : p ≤ align_up p al := by
  obtain ⟨k, hk, rfl⟩ := ha
  have h2 : (2 : Nat) ^ k ≤ 2 ^ 63 := Nat.pow_le_pow_right (by omega) hk
  have hno : p + 2 ^ k ≤ 2 ^ 64 := by omega
  rw [align_up_eq p k hk hno]
  have hd := Nat.div_add_mod (p + (2 ^ k - 1)) (2 ^ k)
  have hm := Nat.mod_lt (p + (2 ^ k - 1)) (Nat.two_pow_pos k)
  omega

/-- Rounding up to a power of two alignment advances by less than one
alignment unit. -/
theorem align_up_lt_add {al : Nat} (p : Nat) (ha : ValidAlign al)
    (hp : p ≤ 2 ^ 63) : align_up p al < p + al := by
  obtain ⟨k, hk, rfl⟩ := ha
  have h2 : (2 : Nat) ^ k ≤ 2 ^ 63 := Nat.pow_le_pow_right (by omega) hk
  have hno : p + 2 ^ k ≤ 2 ^ 64 := by omega
  rw [align_up_eq p k hk hno]
  have hd := Nat.div_add_mod (p + (2 ^ k - 1)) (2 ^ k)
  have hm := Nat.mod_lt (p + (2 ^ k - 1)) (Nat.two_pow_pos k)
  have hpos : 0 < 2 ^ k := Nat.two_pow_pos k
  omega

/-- The result of align_up is a multiple of the alignment. -/
theorem align_up_mod {al : Nat} (p : Nat) (ha : ValidAlign al)
    (hp : p ≤ 2 ^ 63) : align_up p al % al = 0 := by
  obtain ⟨k, hk, rfl⟩ := ha
  have h2 : (2 : Nat) ^ k ≤ 2 ^ 63 := Nat.pow_le_pow_right (by omega) hk
  have hno : p + 2 ^ k ≤ 2 ^ 64 := by omega
  rw [align_up_eq p k hk hno]
  exact Nat.mul_mod_right _ _

/-- align_up is monotone in the pointer argument. -/
theorem align_up_mono {al : Nat} (p q : Nat) (ha : ValidAlign al)
    (hq : q ≤ 2 ^ 63) (hpq : p ≤ q) : align_up p al ≤ align_up q al := by
  obtain ⟨k, hk, rfl⟩ := ha
  have h2 : (2 : Nat) ^ k ≤ 2 ^ 63 := Nat.pow_le_pow_right (by omega) hk
  have hnoq : q + 2 ^ k ≤ 2 ^ 64 := by omega
  have hnop : p + 2 ^ k ≤ 2 ^ 64 := by omega
  rw [align_up_eq p k hk hnop, align_up_eq q k hk hnoq]
  exact Nat.mul_le_mul_left _ (Nat.div_le_div_right (by omega))

/-- align_up fixes pointers that are already aligned. -/
theorem align_up_of_mod {al : Nat} (p : Nat) (ha : ValidAlign al)
    (hp : p ≤ 2 ^ 63) (hm : p % al = 0) : align_up p al = p := by
  obtain ⟨k, hk, rfl⟩ := ha
  have h2 : (2 : Nat) ^ k ≤ 2 ^ 63 := Nat.pow_le_pow_right (by omega) hk
  have hno : p + 2 ^ k ≤ 2 ^ 64 := by omega
  rw [align_up_eq p k hk hno]
  obtain ⟨t, rfl⟩ := Nat.dvd_of_mod_eq_zero hm
  rw [Nat.mul_add_div (Nat.two_pow_pos k)]
  rw [Nat.div_eq_of_lt (by have := Nat.two_pow_pos k; omega)]
  simp

/-! Operational lemmas about alloc, dealloc and call sequences. -/

namespace BumpAllocator

variable {HEAP_SIZE : Nat} {a : BumpAllocator HEAP_SIZE} {l : Layout}

theorem cursor_mk (hs nf : Nat) (h : nf ≠ 0) :
    (⟨hs, nf⟩ : BumpAllocator HEAP_SIZE).cursor = nf := by
  unfold cursor
  simp [h]

theorem cursor_lb (hw : a.WF) : a.heap_start ≤ a.cursor := by
  unfold cursor
  by_cases h0 : a.next_free = 0
  · simp [h0]
  · simp only [h0, if_false]
    rcases hw.2.2.2 with h | h
    · exact absurd h h0
    · exact h.1

theorem cursor_ub (hw : a.WF) : a.cursor ≤ a.heap_start + HEAP_SIZE := by
  unfold cursor
  by_cases h0 : a.next_free = 0
  · simp [h0]
  · simp only [h0, if_false]
    rcases hw.2.2.2 with h | h
    · exact absurd h h0
    · exact h.2

theorem cursor_pos (hw : a.WF) : 0 < a.cursor :=
  lt_of_lt_of_le hw.1 (cursor_lb hw)

theorem cursor_le_half (hw : a.WF) : a.cursor ≤ 2 ^ 63 :=
  le_trans (cursor_ub hw) hw.2.2.1

/-- Closed form of one alloc call in terms of the effective cursor. -/
theorem alloc_eq (a : BumpAllocator HEAP_SIZE) (l : Layout) :
    a.alloc l =
      if a.heap_start + HEAP_SIZE < align_up a.cursor l.align + l.size then
        (0, a)
      else
        (align_up a.cursor l.align,
          ⟨a.heap_start, align_up a.cursor l.align + l.size⟩) :=
  rfl

theorem alloc_success
    (h : align_up a.cursor l.align + l.size ≤ a.heap_start + HEAP_SIZE) :
    a.alloc l = (align_up a.cursor l.align,
      ⟨a.heap_start, align_up a.cursor l.align + l.size⟩) := by
  rw [alloc_eq, if_neg (by omega)]

theorem alloc_fail
    (h : a.heap_start + HEAP_SIZE < align_up a.cursor l.align + l.size) :
    a.alloc l = (0, a) := by
  rw [alloc_eq, if_pos h]

/-- The returned pointer is null exactly when the bound check fails. -/
theorem alloc_fst_eq_zero_iff (hw : a.WF) (ha : ValidAlign l.align) :
    (a.alloc l).1 = 0 ↔
      a.heap_start + HEAP_SIZE < align_up a.cursor l.align + l.size := by
  constructor
  · intro h
    by_contra hc
    push_neg at hc
    rw [alloc_success hc] at h
    have h1 := align_up_ge a.cursor ha (cursor_le_half hw)
    have h2 := cursor_pos hw
    simp at h
    omega
  · intro h
    rw [alloc_fail h]

/-- What a successful alloc call returns and stores. -/
theorem alloc_success_spec (hw : a.WF) (ha : ValidAlign l.align)
    (h : (a.alloc l).1 ≠ 0) :
    (a.alloc l).1 = align_up a.cursor l.align ∧
    (a.alloc l).2 = ⟨a.heap_start, align_up a.cursor l.align + l.size⟩ ∧
    align_up a.cursor l.align + l.size ≤ a.heap_start + HEAP_SIZE := by
  have hle : align_up a.cursor l.align + l.size ≤ a.heap_start + HEAP_SIZE := by
    by_contra hc
    push_neg at hc
    exact h ((alloc_fst_eq_zero_iff hw ha).2 hc)
  rw [alloc_success hle]
  exact ⟨rfl, rfl, hle⟩

theorem alloc_wf (hw : a.WF) (ha : ValidAlign l.align) : (a.alloc l).2.WF := by
  rcases le_or_lt (align_up a.cursor l.align + l.size)
      (a.heap_start + HEAP_SIZE) with h | h
  · have h4 := align_up_ge a.cursor ha (cursor_le_half hw)
    have h5 := cursor_lb hw
    rw [alloc_success h]
    show WF ⟨a.heap_start, align_up a.cursor l.align + l.size⟩
    unfold WF
    dsimp only
    obtain ⟨h1, h2, h3, _⟩ := hw
    exact ⟨h1, h2, h3, Or.inr ⟨by omega, by omega⟩⟩
  · rw [alloc_fail h]
    exact hw

theorem alloc_heap_start : (a.alloc l).2.heap_start = a.heap_start := by
  rw [alloc_eq]
  split <;> rfl

theorem cursor_mono_alloc (hw : a.WF) (ha : ValidAlign l.align) :
    a.cursor ≤ (a.alloc l).2.cursor := by
  rcases le_or_lt (align_up a.cursor l.align + l.size)
      (a.heap_start + HEAP_SIZE) with h | h
  · have h1 := align_up_ge a.cursor ha (cursor_le_half hw)
    have h2 := cursor_pos hw
    have h0 : align_up a.cursor l.align + l.size ≠ 0 := by omega
    rw [alloc_success h]
    show a.cursor ≤ cursor ⟨a.heap_start, align_up a.cursor l.align + l.size⟩
    rw [cursor_mk _ _ h0]
    omega
  · rw [alloc_fail h]

end BumpAllocator

open BumpAllocator

theorem applyCall_heap_start {HEAP_SIZE : Nat} (a : BumpAllocator HEAP_SIZE)
    (c : Call) : (applyCall a c).heap_start = a.heap_start := by
  cases c with
  | allocate s al => exact alloc_heap_start
  | deallocate p s al => rfl

theorem applyCall_wf {HEAP_SIZE : Nat} {a : BumpAllocator HEAP_SIZE} {c : Call}
    (hw : a.WF) (hc : ValidCall c) : (applyCall a c).WF := by
  cases c with
  | allocate s al => exact alloc_wf hw hc
  | deallocate p s al => exact hw

theorem applyCall_cursor_mono {HEAP_SIZE : Nat} {a : BumpAllocator HEAP_SIZE}
    {c : Call} (hw : a.WF) (hc : ValidCall c) :
    a.cursor ≤ (applyCall a c).cursor := by
  cases c with
  | allocate s al => exact cursor_mono_alloc hw hc
  | deallocate p s al => exact Nat.le_refl _

theorem runState_heap_start {HEAP_SIZE : Nat} (a : BumpAllocator HEAP_SIZE)
    (cs : List Call) : (runState a cs).heap_start = a.heap_start := by
  induction cs generalizing a with
  | nil => rfl
  | cons c cs ih => rw [runState, ih, applyCall_heap_start]

theorem runState_wf {HEAP_SIZE : Nat} {a : BumpAllocator HEAP_SIZE}
    {cs : List Call} (hw : a.WF) (hv : ∀ c ∈ cs, ValidCall c) :
    (runState a cs).WF := by
  induction cs generalizing a with
  | nil => exact hw
  | cons c cs ih =>
      exact ih (applyCall_wf hw (hv c (by simp)))
        (fun c' h' => hv c' (by simp [h']))

theorem runState_cursor_mono {HEAP_SIZE : Nat} {a : BumpAllocator HEAP_SIZE}
    {cs : List Call} (hw : a.WF) (hv : ∀ c ∈ cs, ValidCall c) :
    a.cursor ≤ (runState a cs).cursor := by
  induction cs generalizing a with
  | nil => exact Nat.le_refl _
  | cons c cs ih =>
      exact le_trans (applyCall_cursor_mono hw (hv c (by simp)))
        (ih (applyCall_wf hw (hv c (by simp))) (fun c' h' => hv c' (by simp [h'])))

theorem runState_append {HEAP_SIZE : Nat} (a : BumpAllocator HEAP_SIZE)
    (cs1 cs2 : List Call) :
    runState a (cs1 ++ cs2) = runState (runState a cs1) cs2 := by
  induction cs1 generalizing a with
  | nil => rfl
  | cons c cs ih => rw [List.cons_append, runState, runState, ih]

/-- Every block issued by one call starts at or after the cursor before the
call and ends at or before the cursor after it. -/
theorem callBlocks_spec {HEAP_SIZE : Nat} {a : BumpAllocator HEAP_SIZE}
    {c : Call} (hw : a.WF) (hc : ValidCall c) :
    ∀ b ∈ callBlocks a c, a.cursor ≤ b.1 ∧ b.1 + b.2 ≤ (applyCall a c).cursor := by
  cases c with
  | deallocate p s al => intro b hb; simp [callBlocks] at hb
  | allocate s al =>
      intro b hb
      have hca : ValidAlign al := hc
      simp only [callBlocks] at hb
      split at hb
      · simp at hb
      · next hne =>
          simp only [List.mem_singleton] at hb
          subst hb
          obtain ⟨h1, h2, h3⟩ := alloc_success_spec hw hca hne
          dsimp only at h1 h2 h3
          have h4 := align_up_ge a.cursor hca (cursor_le_half hw)
          have h5 := cursor_pos hw
          have h0 : align_up a.cursor al + s ≠ 0 := by omega
          constructor
          · dsimp only
            rw [h1]
            exact h4
          · dsimp only [applyCall]
            rw [h1, h2]
            show align_up a.cursor al + s ≤
              cursor ⟨a.heap_start, align_up a.cursor al + s⟩
            rw [cursor_mk _ _ h0]

theorem runBlocks_bounds {HEAP_SIZE : Nat} {a : BumpAllocator HEAP_SIZE}
    {cs : List Call} (hw : a.WF) (hv : ∀ c ∈ cs, ValidCall c) :
    ∀ b ∈ runBlocks a cs,
      a.cursor ≤ b.1 ∧ b.1 + b.2 ≤ (runState a cs).cursor := by
  induction cs generalizing a with
  | nil => intro b hb; simp [runBlocks] at hb
  | cons c cs ih =>
      intro b hb
      have hwc : (applyCall a c).WF := applyCall_wf hw (hv c (by simp))
      have hvc : ∀ c' ∈ cs, ValidCall c' := fun c' h' => hv c' (by simp [h'])
      rw [runBlocks, List.mem_append] at hb
      rcases hb with hb | hb
      · obtain ⟨hl, hr⟩ := callBlocks_spec hw (hv c (by simp)) b hb
        exact ⟨hl, le_trans hr (runState_cursor_mono hwc hvc)⟩
      · obtain ⟨hl, hr⟩ := ih hwc hvc b hb
        exact ⟨le_trans (applyCall_cursor_mono hw (hv c (by simp))) hl, hr⟩

/-- One alloc call at a cursor that is already aligned and has room:
no padding is inserted and the cursor advances by exactly the size. -/
theorem alloc_aligned_success {HEAP_SIZE : Nat} (a : BumpAllocator HEAP_SIZE)
    (s al : Nat) (hw : a.WF) (ha : ValidAlign al) (hmod : a.cursor % al = 0)
    (hle : a.cursor + s ≤ a.heap_start + HEAP_SIZE) :
    a.alloc ⟨s, al⟩ = (a.cursor, ⟨a.heap_start, a.cursor + s⟩) := by
  have hfix := align_up_of_mod a.cursor ha (cursor_le_half hw) hmod
  have h2 : align_up a.cursor (Layout.mk s al).align + (Layout.mk s al).size ≤
      a.heap_start + HEAP_SIZE := by
    dsimp only
    rw [hfix]
    exact hle
  have hsucc := alloc_success h2
  dsimp only at hsucc
  rw [hfix] at hsucc
  exact hsucc

/-- One alloc call at a cursor that is already aligned but lacks room:
the call fails and the state is unchanged. -/
theorem alloc_aligned_fail {HEAP_SIZE : Nat} (a : BumpAllocator HEAP_SIZE)
    (s al : Nat) (hw : a.WF) (ha : ValidAlign al) (hmod : a.cursor % al = 0)
    (hgt : a.heap_start + HEAP_SIZE < a.cursor + s) :
    a.alloc ⟨s, al⟩ = (0, a) := by
  apply alloc_fail
  dsimp only
  rw [align_up_of_mod a.cursor ha (cursor_le_half hw) hmod]
  exact hgt

/-- An allocate(0, 1) call always succeeds and returns the effective
cursor, storing it back unchanged. -/
theorem alloc_unit_spec {HEAP_SIZE : Nat} {a : BumpAllocator HEAP_SIZE}
    (hw : a.WF) :
    a.alloc ⟨0, 1⟩ = (a.cursor, ⟨a.heap_start, a.cursor⟩) := by
  have hva : ValidAlign (1 : Nat) := ⟨0, by omega, rfl⟩
  have hub := cursor_ub hw
  have h := alloc_aligned_success a 0 1 hw hva (Nat.mod_one _) (by omega)
  rw [Nat.add_zero] at h
  exact h

/-! The claims. -/

/-- C1: for every sequence of allocate and deallocate calls on one
machine-valid BumpAllocator instance whose allocate calls use power of two
alignments, the ranges returned by all successful allocate calls are
pairwise non-overlapping: no address lies in two issued blocks. -/
theorem claim_C1_blocks_pairwise_disjoint {HEAP_SIZE : Nat}
    (a : BumpAllocator HEAP_SIZE) (cs : List Call) (hw : a.WF)
    (hv : ∀ c ∈ cs, ValidCall c) :
    (runBlocks a cs).Pairwise (fun b1 b2 => ¬ Overlap b1 b2) := by
  induction cs generalizing a with
  | nil => simp [runBlocks]
  | cons c cs ih =>
      have hwc : (applyCall a c).WF := applyCall_wf hw (hv c (by simp))
      have hvc : ∀ c' ∈ cs, ValidCall c' := fun c' h' => hv c' (by simp [h'])
      rw [runBlocks]
      apply List.pairwise_append.2
      refine ⟨?_, ih _ hwc hvc, ?_⟩
      · cases c with
        | deallocate p s al => simp [callBlocks]
        | allocate s al =>
            simp only [callBlocks]
            split
            · simp
            · simp
      · intro b1 hb1 b2 hb2
        obtain ⟨_, h1⟩ := callBlocks_spec hw (hv c (by simp)) b1 hb1
        obtain ⟨h2, _⟩ := runBlocks_bounds hwc hvc b2 hb2
        rintro ⟨x, ⟨hx1, hx2⟩, ⟨hx3, hx4⟩⟩
        omega

theorem claim_C1_witness :
    (runBlocks (BumpAllocator.new 65536 16)
      [Call.allocate 64 8, Call.deallocate 16 64 8,
        Call.allocate 64 8]).Pairwise (fun b1 b2 => ¬ Overlap b1 b2) :=
  claim_C1_blocks_pairwise_disjoint (BumpAllocator.new 65536 16)
    [Call.allocate 64 8, Call.deallocate 16 64 8, Call.allocate 64 8]
    (by decide) (by decide)

/-- C2: every successful allocate call (returned pointer not the null
sentinel) with a power of two alignment returns an address that is a
multiple of the requested alignment. -/
theorem claim_C2_aligned {HEAP_SIZE : Nat} (a : BumpAllocator HEAP_SIZE)
    (l : Layout) (hw : a.WF) (ha : ValidAlign l.align)
    (h : (a.alloc l).1 ≠ 0) : (a.alloc l).1 % l.align = 0 := by
  obtain ⟨h1, _, _⟩ := alloc_success_spec hw ha h
  rw [h1]
  exact align_up_mod _ ha (cursor_le_half hw)

theorem claim_C2_witness :
    ((BumpAllocator.new 65536 16).alloc ⟨64, 8⟩).1 ≠ 0 ∧
    ((BumpAllocator.new 65536 16).alloc ⟨64, 8⟩).1 % 8 = 0 :=
  ⟨by decide, claim_C2_aligned (BumpAllocator.new 65536 16) ⟨64, 8⟩
    (by decide) (by decide) (by decide)⟩

/-- C3: every successful allocate call returns a block whose range
lies entirely inside the backing buffer: the block starts at or after
buffer_start and ends at or before buffer_start + HEAP_SIZE. -/
theorem claim_C3_in_bounds {HEAP_SIZE : Nat} (a : BumpAllocator HEAP_SIZE)
    (l : Layout) (hw : a.WF) (ha : ValidAlign l.align)
    (h : (a.alloc l).1 ≠ 0) :
    a.heap_start ≤ (a.alloc l).1 ∧
    (a.alloc l).1 + l.size ≤ a.heap_start + HEAP_SIZE := by
  obtain ⟨h1, _, h3⟩ := alloc_success_spec hw ha h
  have h4 := align_up_ge a.cursor ha (cursor_le_half hw)
  have h5 := cursor_lb hw
  rw [h1]
  omega

theorem claim_C3_witness :
    16 ≤ ((BumpAllocator.new 65536 16).alloc ⟨64, 8⟩).1 ∧
    ((BumpAllocator.new 65536 16).alloc ⟨64, 8⟩).1 + 64 ≤ 16 + 65536 :=
  claim_C3_in_bounds (BumpAllocator.new 65536 16) ⟨64, 8⟩
    (by decide) (by decide) (by decide)

/-- C4: an allocate call whose candidate end address (aligned cursor plus
size) exceeds buffer_start + HEAP_SIZE returns the null failure sentinel
with the whole state unchanged; the fetch_update closure returns None, so
there is no retry on exhaustion. The witness is the spec scenario
HEAP_SIZE = 256, allocate(512, 8). -/
theorem claim_C4_exhaustion_fails_unchanged {HEAP_SIZE : Nat}
    (a : BumpAllocator HEAP_SIZE) (l : Layout)
    (h : a.heap_start + HEAP_SIZE < align_up a.cursor l.align + l.size) :
    a.alloc l = (0, a) :=
  alloc_fail h

theorem claim_C4_witness :
    (BumpAllocator.new 256 16).heap_start + 256 <
      align_up (BumpAllocator.new 256 16).cursor 8 + 512 ∧
    (BumpAllocator.new 256 16).alloc ⟨512, 8⟩ = (0, BumpAllocator.new 256 16) :=
  ⟨by decide, claim_C4_exhaustion_fails_unchanged (BumpAllocator.new 256 16)
    ⟨512, 8⟩ (by decide)⟩

/-- C5: after any valid call sequence the stored cursor is either the null
sentinel or a value in [buffer_start, buffer_start + HEAP_SIZE], and one
further call of either kind (allocate or deallocate) never decreases the
effective cursor. -/
theorem claim_C5_cursor_invariant_monotone {HEAP_SIZE : Nat}
    (a : BumpAllocator HEAP_SIZE) (cs : List Call) (c : Call) (hw : a.WF)
    (hv : ∀ c' ∈ cs, ValidCall c') (hc : ValidCall c) :
    ((runState a cs).next_free = 0 ∨
      (a.heap_start ≤ (runState a cs).next_free ∧
        (runState a cs).next_free ≤ a.heap_start + HEAP_SIZE)) ∧
    (runState a cs).cursor ≤ (applyCall (runState a cs) c).cursor := by
  have hwr := runState_wf hw hv
  have hhs := runState_heap_start a cs
  refine ⟨?_, applyCall_cursor_mono hwr hc⟩
  have h4 := hwr.2.2.2
  rw [hhs] at h4
  exact h4

theorem claim_C5_witness :
    ((runState (BumpAllocator.new 256 16) [Call.allocate 64 8]).next_free = 0 ∨
      (16 ≤ (runState (BumpAllocator.new 256 16)
          [Call.allocate 64 8]).next_free ∧
        (runState (BumpAllocator.new 256 16)
          [Call.allocate 64 8]).next_free ≤ 16 + 256)) ∧
    (runState (BumpAllocator.new 256 16) [Call.allocate 64 8]).cursor ≤
      (applyCall (runState (BumpAllocator.new 256 16) [Call.allocate 64 8])
        (Call.deallocate 16 64 8)).cursor :=
  claim_C5_cursor_invariant_monotone (BumpAllocator.new 256 16)
    [Call.allocate 64 8] (Call.deallocate 16 64 8)
    (by decide) (by decide) (by decide)

/-- C8: dealloc is a no-op for every input, including pointers that did
not come from this allocator: it leaves the state unchanged, any sequence
of dealloc calls leaves it unchanged, and it never changes the result of
a subsequent allocate call. -/
theorem claim_C8_dealloc_noop {HEAP_SIZE : Nat} (a : BumpAllocator HEAP_SIZE)
    (p : Nat) (l l2 : Layout) (ps : List (Nat × Layout)) :
    a.dealloc p l = a ∧
    List.foldl (fun st q => st.dealloc q.1 q.2) a ps = a ∧
    (a.dealloc p l).alloc l2 = a.alloc l2 := by
  refine ⟨rfl, ?_, rfl⟩
  induction ps generalizing a with
  | nil => rfl
  | cons q ps ih => exact ih a

/-- C10: in every machine-valid state, allocate(0, 1) succeeds (returns
the non-null effective cursor), even when the cursor equals the one past
the end address buffer_start + HEAP_SIZE, and it does not move the
effective cursor, so a second allocate(0, 1) returns the same address:
distinct zero-size allocations can share an address. -/
theorem claim_C10_zero_alloc_at_cursor {HEAP_SIZE : Nat}
    (a : BumpAllocator HEAP_SIZE) (hw : a.WF) :
    (a.alloc ⟨0, 1⟩).1 = a.cursor ∧ (a.alloc ⟨0, 1⟩).1 ≠ 0 ∧
    (a.alloc ⟨0, 1⟩).2.cursor = a.cursor ∧
    ((a.alloc ⟨0, 1⟩).2.alloc ⟨0, 1⟩).1 = a.cursor := by
  have hpos := cursor_pos hw
  have h1 := alloc_unit_spec hw
  have hwb : (⟨a.heap_start, a.cursor⟩ : BumpAllocator HEAP_SIZE).WF :=
    ⟨hw.1, hw.2.1, hw.2.2.1, Or.inr ⟨cursor_lb hw, cursor_ub hw⟩⟩
  have hcb : (⟨a.heap_start, a.cursor⟩ : BumpAllocator HEAP_SIZE).cursor =
      a.cursor :=
    cursor_mk a.heap_start a.cursor (by omega)
  have h2 := alloc_unit_spec hwb
  rw [hcb] at h2
  refine ⟨by rw [h1], by rw [h1]; dsimp only; omega, ?_, ?_⟩
  · rw [h1]
    show cursor ⟨a.heap_start, a.cursor⟩ = a.cursor
    exact hcb
  · rw [h1]
    show ((⟨a.heap_start, a.cursor⟩ : BumpAllocator HEAP_SIZE).alloc ⟨0, 1⟩).1 =
      a.cursor
    rw [h2]

theorem claim_C10_witness :
    ((⟨16, 272⟩ : BumpAllocator 256).alloc ⟨0, 1⟩).1 = 272 ∧
    (((⟨16, 272⟩ : BumpAllocator 256).alloc ⟨0, 1⟩).2.alloc ⟨0, 1⟩).1 = 272 := by
  have h := claim_C10_zero_alloc_at_cursor
    (⟨16, 272⟩ : BumpAllocator 256) (by decide)
  exact ⟨h.1, h.2.2.2⟩

/-- C6 counterexample: cumulative demand counts every issued allocate
call, but a failed call does not advance the cursor. With HEAP_SIZE = 256
the call allocate(512, 8) fails, raising cumulative demand (sum of aligned
sizes of issued calls) to 512 > 256, yet the next allocate(64, 8) call
still succeeds and returns the non-null address 16, so exceeding the
cumulative demand bound does not make every further call fail. -/
theorem claim_C6_counterexample :
    ((BumpAllocator.new 256 16).alloc ⟨512, 8⟩).1 = 0 ∧
    256 < 512 ∧
    (((BumpAllocator.new 256 16).alloc ⟨512, 8⟩).2.alloc ⟨64, 8⟩).1 = 16 := by
  decide

/-- C6 (amended): once a given allocate(size, align) request fails on an
instance, the same request deterministically keeps returning the failure
sentinel after any further valid calls, for the remaining lifetime of the
instance (the effective cursor never decreases and the bound check is
monotone in it). -/
theorem claim_C6_failure_is_permanent {HEAP_SIZE : Nat}
    (a : BumpAllocator HEAP_SIZE) (cs : List Call) (s al : Nat) (hw : a.WF)
    (hv : ∀ c ∈ cs, ValidCall c) (ha : ValidAlign al)
    (hfail : (a.alloc ⟨s, al⟩).1 = 0) :
    ((runState a cs).alloc ⟨s, al⟩).1 = 0 := by
  have hwr := runState_wf hw hv
  have h1 := (alloc_fst_eq_zero_iff hw ha).1 hfail
  dsimp only at h1
  apply (alloc_fst_eq_zero_iff hwr ha).2
  dsimp only
  have hhs := runState_heap_start a cs
  have hmono : align_up a.cursor al ≤ align_up (runState a cs).cursor al :=
    align_up_mono a.cursor (runState a cs).cursor ha
      (cursor_le_half hwr) (runState_cursor_mono hw hv)
  omega

theorem claim_C6_witness :
    ((runState (BumpAllocator.new 256 16)
      [Call.allocate 64 8]).alloc ⟨512, 8⟩).1 = 0 :=
  claim_C6_failure_is_permanent (BumpAllocator.new 256 16)
    [Call.allocate 64 8] 512 8 (by decide) (by decide) (by decide) (by decide)

/-- C7 counterexample: a zero-size allocate call is not always successful.
On a fresh allocator with HEAP_SIZE = 256 at base address 16, the call
allocate(0, 512) rounds the cursor up to 512, which exceeds the heap end
272, so the call returns the null failure sentinel even though 512 is a
power of two: the claim that allocate(0, align) always succeeds and
returns a non-null address is false. -/
theorem claim_C7_counterexample :
    ValidAlign 512 ∧ ((BumpAllocator.new 256 16).alloc ⟨0, 512⟩).1 = 0 := by
  constructor
  · exact ⟨9, by omega, rfl⟩
  · decide

/-- C7 (amended): an allocate(0, align) call with a power of two alignment
succeeds exactly when the aligned cursor does not exceed
buffer_start + HEAP_SIZE; in that case it returns the non-null aligned
cursor and advances the stored cursor only by the alignment padding (the
stored end equals the returned start); otherwise it returns the failure
sentinel and leaves the state unchanged. -/
theorem claim_C7_zero_size {HEAP_SIZE : Nat} (a : BumpAllocator HEAP_SIZE)
    (al : Nat) (hw : a.WF) (ha : ValidAlign al) :
    (align_up a.cursor al ≤ a.heap_start + HEAP_SIZE →
      (a.alloc ⟨0, al⟩).1 = align_up a.cursor al ∧
      (a.alloc ⟨0, al⟩).1 ≠ 0 ∧
      (a.alloc ⟨0, al⟩).2.next_free = (a.alloc ⟨0, al⟩).1) ∧
    (a.heap_start + HEAP_SIZE < align_up a.cursor al →
      a.alloc ⟨0, al⟩ = (0, a)) := by
  have hge := align_up_ge a.cursor ha (cursor_le_half hw)
  have hpos := cursor_pos hw
  constructor
  · intro h
    have hle : align_up a.cursor (Layout.mk 0 al).align +
        (Layout.mk 0 al).size ≤ a.heap_start + HEAP_SIZE := by
      dsimp only
      omega
    have hsucc := alloc_success hle
    dsimp only at hsucc
    rw [Nat.add_zero] at hsucc
    rw [hsucc]
    exact ⟨rfl, by omega, rfl⟩
  · intro h
    apply alloc_fail
    dsimp only
    omega

theorem claim_C7_witness :
    ((BumpAllocator.new 256 16).alloc ⟨0, 8⟩).1 =
      align_up (BumpAllocator.new 256 16).cursor 8 ∧
    ((BumpAllocator.new 256 16).alloc ⟨0, 8⟩).1 ≠ 0 ∧
    ((BumpAllocator.new 256 16).alloc ⟨0, 8⟩).2.next_free =
      ((BumpAllocator.new 256 16).alloc ⟨0, 8⟩).1 :=
  (claim_C7_zero_size (BumpAllocator.new 256 16) 8
    (by decide) (by decide)).1 (by decide)

/-- A machine-valid state built from explicit bounds. -/
theorem WF_mk (H hs nf : Nat) (hpos : 0 < hs) (h16 : hs % 16 = 0)
    (hub : hs + H ≤ 2 ^ 63) (h1 : hs ≤ nf) (h2 : nf ≤ hs + H) :
    (⟨hs, nf⟩ : BumpAllocator H).WF := by
  unfold BumpAllocator.WF
  dsimp only
  exact ⟨hpos, h16, hub, Or.inr ⟨h1, h2⟩⟩

/-- The state reached by i repeated allocate(64, 8) calls on a fresh
instance with HEAP_SIZE = 256 at a machine-valid base address hs: the base
is 16-aligned so no padding is ever inserted, the cursor advances by 64
per successful call, and it saturates at hs + 256 after 4 calls. -/
theorem replicate_64_8_state (hs : Nat) (hpos : 0 < hs) (h16 : hs % 16 = 0)
    (hub : hs + 256 ≤ 2 ^ 63) (i : Nat) :
    runState (BumpAllocator.new 256 hs)
        (List.replicate i (Call.allocate 64 8)) =
      if i = 0 then BumpAllocator.new 256 hs
      else ⟨hs, hs + 64 * min i 4⟩ := by
  have hva : ValidAlign (8 : Nat) := ⟨3, by omega, rfl⟩
  induction i with
  | zero => rfl
  | succ i ih =>
      rw [List.replicate_succ', runState_append, ih]
      by_cases h0 : i = 0
      · subst h0
        rw [if_pos rfl, if_neg (by omega)]
        show applyCall (BumpAllocator.new 256 hs) (Call.allocate 64 8) =
          ⟨hs, hs + 64 * min 1 4⟩
        dsimp only [applyCall]
        have hwn : (BumpAllocator.new 256 hs).WF := ⟨hpos, h16, hub, Or.inl rfl⟩
        have hcn : (BumpAllocator.new 256 hs).cursor = hs := rfl
        rw [alloc_aligned_success (BumpAllocator.new 256 hs) 64 8 hwn hva
          (by rw [hcn]; omega)
          (by rw [hcn]; show hs + 64 ≤ hs + 256; omega)]
        dsimp only
        rw [hcn]
        rfl
      · rw [if_neg h0, if_neg (by omega)]
        show applyCall (⟨hs, hs + 64 * min i 4⟩ : BumpAllocator 256)
          (Call.allocate 64 8) = ⟨hs, hs + 64 * min (i + 1) 4⟩
        dsimp only [applyCall]
        have hwj : (⟨hs, hs + 64 * min i 4⟩ : BumpAllocator 256).WF :=
          WF_mk 256 hs (hs + 64 * min i 4) hpos h16 hub (by omega) (by omega)
        have hcj : (⟨hs, hs + 64 * min i 4⟩ : BumpAllocator 256).cursor =
            hs + 64 * min i 4 :=
          cursor_mk hs (hs + 64 * min i 4) (by omega)
        by_cases h4 : i < 4
        · rw [alloc_aligned_success _ 64 8 hwj hva
            (by rw [hcj]; omega)
            (by rw [hcj]; show hs + 64 * min i 4 + 64 ≤ hs + 256; omega)]
          dsimp only
          rw [hcj]
          show (⟨hs, hs + 64 * min i 4 + 64⟩ : BumpAllocator 256) =
            ⟨hs, hs + 64 * min (i + 1) 4⟩
          have harith : hs + 64 * min i 4 + 64 = hs + 64 * min (i + 1) 4 := by
            omega
          rw [harith]
        · rw [alloc_aligned_fail _ 64 8 hwj hva
            (by rw [hcj]; omega)
            (by rw [hcj]; show hs + 256 < hs + 64 * min i 4 + 64; omega)]
          show (⟨hs, hs + 64 * min i 4⟩ : BumpAllocator 256) =
            ⟨hs, hs + 64 * min (i + 1) 4⟩
          have harith : 64 * min i 4 = 64 * min (i + 1) 4 := by omega
          rw [harith]

/-- C9: on a fresh instance with HEAP_SIZE = 256 at a machine-valid
(16-aligned) base address hs, repeated allocate(64, 8) calls succeed
exactly 4 times, with no padding consumed: the call issued after i earlier
calls returns the non-null address hs + 64 * i when i < 4 and the null
failure sentinel for every i ≥ 4. -/
theorem claim_C9_exactly_four_successes (hs : Nat) (hpos : 0 < hs)
    (h16 : hs % 16 = 0) (hub : hs + 256 ≤ 2 ^ 63) (i : Nat) :
    (i < 4 →
      ((runState (BumpAllocator.new 256 hs)
          (List.replicate i (Call.allocate 64 8))).alloc ⟨64, 8⟩).1 =
        hs + 64 * i ∧
      ((runState (BumpAllocator.new 256 hs)
          (List.replicate i (Call.allocate 64 8))).alloc ⟨64, 8⟩).1 ≠ 0) ∧
    (4 ≤ i →
      ((runState (BumpAllocator.new 256 hs)
          (List.replicate i (Call.allocate 64 8))).alloc ⟨64, 8⟩).1 = 0) := by
  have hva : ValidAlign (8 : Nat) := ⟨3, by omega, rfl⟩
  rw [replicate_64_8_state hs hpos h16 hub i]
  by_cases h0 : i = 0
  · subst h0
    rw [if_pos rfl]
    have hwn : (BumpAllocator.new 256 hs).WF := ⟨hpos, h16, hub, Or.inl rfl⟩
    have hcn : (BumpAllocator.new 256 hs).cursor = hs := rfl
    rw [alloc_aligned_success (BumpAllocator.new 256 hs) 64 8 hwn hva
      (by rw [hcn]; omega)
      (by rw [hcn]; show hs + 64 ≤ hs + 256; omega)]
    dsimp only
    rw [hcn]
    exact ⟨fun _ => ⟨by omega, by omega⟩, fun h => by omega⟩
  · rw [if_neg h0]
    have hwj : (⟨hs, hs + 64 * min i 4⟩ : BumpAllocator 256).WF :=
      WF_mk 256 hs (hs + 64 * min i 4) hpos h16 hub (by omega) (by omega)
    have hcj : (⟨hs, hs + 64 * min i 4⟩ : BumpAllocator 256).cursor =
        hs + 64 * min i 4 :=
      cursor_mk hs (hs + 64 * min i 4) (by omega)
    by_cases h4 : i < 4
    · rw [alloc_aligned_success _ 64 8 hwj hva
        (by rw [hcj]; omega)
        (by rw [hcj]; show hs + 64 * min i 4 + 64 ≤ hs + 256; omega)]
      dsimp only
      rw [hcj]
      exact ⟨fun _ => ⟨by omega, by omega⟩, fun h => by omega⟩
    · rw [alloc_aligned_fail _ 64 8 hwj hva
        (by rw [hcj]; omega)
        (by rw [hcj]; show hs + 256 < hs + 64 * min i 4 + 64; omega)]
      exact ⟨fun h => by omega, fun _ => rfl⟩

theorem claim_C9_witness :
    (((runState (BumpAllocator.new 256 16)
        (List.replicate 3 (Call.allocate 64 8))).alloc ⟨64, 8⟩).1 =
        16 + 64 * 3 ∧
      ((runState (BumpAllocator.new 256 16)
        (List.replicate 3 (Call.allocate 64 8))).alloc ⟨64, 8⟩).1 ≠ 0) ∧
    ((runState (BumpAllocator.new 256 16)
        (List.replicate 4 (Call.allocate 64 8))).alloc ⟨64, 8⟩).1 = 0 :=
  ⟨(claim_C9_exactly_four_successes 16 (by decide) (by decide) (by decide)
      3).1 (by decide),
    (claim_C9_exactly_four_successes 16 (by decide) (by decide) (by decide)
      4).2 (by decide)⟩

end BumpAlloc
